import Mathlib

set_option maxRecDepth 4000

/-!
Shallow embedding of `nifty500_glb_scanner.py` (Green Line Breakout scanner).

Prices and volumes are modelled as `Option ℚ`: `none` stands for a missing
value (pandas `NaN`), `some q` for a real number.  A pandas `DataFrame` for one
ticker becomes a `Frame`: a list of rows (one per trading day, carrying the
columns the scanner reads) together with flags recording which columns are
present, since pandas distinguishes an absent column (raises `KeyError`) from a
column of `NaN`s.  A pandas `Series` (the benchmark closes) becomes an
association list from date to optional value; a date absent from the index and
a `NaN` value behave identically under `reindex`/`ffill`, so both are `none`.
Fallible Python code is embedded as `Except String`.
-/

namespace GLB

/-! ### Module-level configuration constants (USER CONFIG block of the source) -/

def LOOKBACK_YEARS_GL : ℕ := 5
def LOOKBACK_YEARS_RS : ℕ := 3
def VOL_SMA_LEN : ℕ := 20
def VOL_MULT : ℚ := 1
def DOWNLOAD_BATCH : ℕ := 60
def MAX_RETRIES : ℕ := 3
def MIN_TRADING_DAYS_REQUIRED : ℕ := 60
def TRADING_DAYS_PER_YEAR : ℕ := 252

def BARS_GLB : ℕ := LOOKBACK_YEARS_GL * TRADING_DAYS_PER_YEAR
def BARS_RS : ℕ := LOOKBACK_YEARS_RS * TRADING_DAYS_PER_YEAR

/-- `max(BARS_GLB, BARS_RS, VOL_SMA_LEN, MIN_TRADING_DAYS_REQUIRED)`:
the length gate of `compute_for_ticker`. -/
def minLen : ℕ := max BARS_GLB (max BARS_RS (max VOL_SMA_LEN MIN_TRADING_DAYS_REQUIRED))

/-! ### Optional values (NaN-aware scalar operations) -/

/-- Strict comparison `a > b` on optional values: any comparison that involves
a missing value (`NaN`) is `False` in pandas/numpy. -/
def optGt (a b : Option ℚ) : Bool :=
  match a, b with
  | some x, some y => decide (y < x)
  | _, _ => false

/-- Elementwise division `a / b`; division by zero or by a missing value
produces a non-numeric result (`inf`/`NaN`), modelled as `none`. -/
def divOpt (a b : Option ℚ) : Option ℚ :=
  match a, b with
  | some x, some y => if y = 0 then none else some (x / y)
  | _, _ => none

/-- Scalar multiple (`VOL_MULT * vol_sma.iloc[-1]`); `NaN` is absorbing. -/
def omul (c : ℚ) (a : Option ℚ) : Option ℚ := a.map (fun x => c * x)

/-- Last element of a list of optional values (`.iloc[-1]`);
`none` for the empty series. -/
def olast (l : List (Option ℚ)) : Option ℚ :=
  match l.getLast? with
  | some v => v
  | none => none

/-! ### Rolling-window statistics (`rolling(window=w, min_periods=1)`) -/

/-- The trailing window of width `w` ending at position `t`:
elements at indices `max 0 (t+1-w) .. t`. -/
def winSlice (w : ℕ) (l : List (Option ℚ)) (t : ℕ) : List (Option ℚ) :=
  (l.take (t + 1)).drop (t + 1 - w)

/-- Maximum of the present (non-`NaN`) values; `none` when there are none.
This is pandas `rolling(...).max()` behaviour on one window with
`min_periods = 1`. -/
def maxSome : List (Option ℚ) → Option ℚ
  | [] => none
  | none :: xs => maxSome xs
  | some v :: xs =>
    match maxSome xs with
    | none => some v
    | some m => some (max v m)

/-- `series.rolling(window=w, min_periods=1).max()`. -/
def rollingMax (w : ℕ) (l : List (Option ℚ)) : List (Option ℚ) :=
  (List.range l.length).map (fun t => maxSome (winSlice w l t))

/-- Mean of the present (non-`NaN`) values of one window; `none` when there
are none (`min_periods = 1`). -/
def meanSome (l : List (Option ℚ)) : Option ℚ :=
  let xs := l.filterMap id
  if xs.isEmpty then none else some (xs.sum / xs.length)

/-- `series.rolling(window=w, min_periods=1).mean()`. -/
def rollingMean (w : ℕ) (l : List (Option ℚ)) : List (Option ℚ) :=
  (List.range l.length).map (fun t => meanSome (winSlice w l t))

/-- `series.shift(1)`: drop the last value, prepend a `NaN`. -/
def shift1 (l : List (Option ℚ)) : List (Option ℚ) :=
  (none :: l).take l.length

/-! ### Forward / backward fill (`ffill` / `bfill`) -/

def ffillAux (acc : Option ℚ) : List (Option ℚ) → List (Option ℚ)
  | [] => []
  | none :: xs => acc :: ffillAux acc xs
  | some v :: xs => some v :: ffillAux (some v) xs

/-- `series.ffill()`: replace each missing value by the most recent earlier
present value, if any. -/
def ffill (l : List (Option ℚ)) : List (Option ℚ) := ffillAux none l

/-- `series.bfill()`: replace each missing value by the nearest later present
value, if any. -/
def bfill (l : List (Option ℚ)) : List (Option ℚ) := (ffillAux none l.reverse).reverse

/-! ### Frames and series -/

/-- One trading-day row of a per-ticker frame, restricted to the columns the
scanner reads (`High`, `Close`, `Volume`, `Adj Close`). Dates are day
numbers. -/
structure Row where
  date : ℕ
  high : Option ℚ
  close : Option ℚ
  volume : Option ℚ
  adjClose : Option ℚ
deriving DecidableEq, Repr

/-- A per-ticker pandas frame: rows plus column-presence flags (pandas
raises `KeyError` on a missing column, so presence is tracked separately
from `NaN`). -/
structure Frame where
  rows : List Row
  hasHigh : Bool
  hasClose : Bool
  hasVolume : Bool
  hasAdjClose : Bool
deriving DecidableEq, Repr

def Frame.dates (f : Frame) : List ℕ := f.rows.map (·.date)

/-- `df.sort_index()`: rows reordered by ascending date (the sort algorithm
itself is unspecified in pandas terms; any date-sorted arrangement models
it). -/
def Frame.sortIndex (f : Frame) : Frame :=
  { f with rows := List.insertionSort (fun a b => a.date ≤ b.date) f.rows }

/-- `df.dropna(subset=["Close"])` after the Close column was checked to
exist: keep rows with a present close. -/
def Frame.dropnaClose (f : Frame) : Frame :=
  { f with rows := f.rows.filter (fun r => r.close.isSome) }

/-- `df.dropna(how="all")`: drop rows all of whose present columns are
missing. -/
def Frame.dropAllNa (f : Frame) : Frame :=
  { f with rows := f.rows.filter (fun r =>
      (f.hasHigh && r.high.isSome) || (f.hasClose && r.close.isSome) ||
      (f.hasVolume && r.volume.isSome) || (f.hasAdjClose && r.adjClose.isSome)) }

/-- A pandas `Series` of optional rationals indexed by date. -/
def Series : Type := List (ℕ × Option ℚ)

/-- Index lookup used by `reindex`: the value at a date, `none` when the date
is absent from the index (or holds `NaN`). -/
def lookupDate (s : Series) (d : ℕ) : Option ℚ :=
  match List.find? (fun p => p.1 = d) s with
  | some p => p.2
  | none => none

/-- `bench_close.reindex(dates).ffill().bfill()`. -/
def alignTo (bench : Series) (dates : List ℕ) : List (Option ℚ) :=
  bfill (ffill (dates.map (lookupDate bench)))

/-! ### Output records -/

/-- One evaluation outcome per ticker (the `out` dict of
`compute_for_ticker`); the date is kept as a day number rather than a
formatted string. -/
structure SignalRecord where
  ticker : String
  date : Option ℕ
  close : Option ℚ
  glb : Bool
  rs_break : Bool
  vol_ok : Bool
  signal : Bool
  notes : String
deriving DecidableEq, Repr

/-- The freshly initialised `out` dict with a `notes` reason code. -/
def mkRec (sym : String) (notes : String) : SignalRecord :=
  { ticker := sym, date := none, close := none, glb := false,
    rs_break := false, vol_ok := false, signal := false, notes := notes }

structure ErrorRecord where
  ticker : String
  error : String
deriving DecidableEq, Repr

/-! ### The Signal Evaluator (`compute_for_ticker`) -/

/-- `compute_for_ticker(sym, df_sym, bench_close)`.

Mirrors the source line by line: the length gate (`df_sym is None or
len(df_sym) < max(...)`), then `sort_index().dropna(subset=["Close"])`
(which raises `KeyError` when the Close column is absent), the empty check,
the benchmark realignment and its all-null check, the `High` column access
(line 99 of the source, outside every `try`, so a missing High column
raises), and finally the three condition blocks.  The comparisons inside the
source's `try` blocks never raise on numeric/NaN data, which the `Option`
arithmetic reproduces; the Volume access sits inside its `try`, so a missing
Volume column degrades `vol_ok` to `False` instead of raising. -/
def compute_for_ticker (sym : String) (df_sym : Option Frame) (bench_close : Series) :
    Except String SignalRecord :=
  match df_sym with
  | none => .ok (mkRec sym "insufficient_data")
  | some f =>
    if f.rows.length < minLen then .ok (mkRec sym "insufficient_data")
    else if f.hasClose = false then .error "KeyError: Close"
    else
      let f2 := (f.sortIndex).dropnaClose
      if f2.rows = [] then .ok (mkRec sym "no_close_data")
      else
        let benchAligned := alignTo bench_close f2.dates
        if benchAligned.all Option.isNone then .ok (mkRec sym "bench_not_aligned")
        else if f2.hasHigh = false then .error "KeyError: High"
        else
          let highs := f2.rows.map (·.high)
          let hh := rollingMax BARS_GLB highs
          let hhPrev := shift1 hh
          let closes := f2.rows.map (·.close)
          let glbB := optGt (olast hh) (olast hhPrev) && optGt (olast closes) (olast hhPrev)
          let rs := List.zipWith divOpt closes benchAligned
          let rsHigh := rollingMax BARS_RS rs
          let rsPrevHigh := shift1 rsHigh
          let rsB := optGt (olast rs) (olast rsPrevHigh)
          let volB :=
            if f2.hasVolume then
              let vols := f2.rows.map (·.volume)
              let volSma := rollingMean VOL_SMA_LEN vols
              optGt (olast vols) (omul VOL_MULT (olast volSma))
            else false
          .ok { ticker := sym, date := f2.dates.getLast?, close := olast closes,
                glb := glbB, rs_break := rsB, vol_ok := volB,
                signal := glbB && rsB && volB, notes := "" }

/-! ### Batching (`chunk_list`) -/

/-- Fuel-driven unfolding of the slice comprehension
`[items[i:i+chunk_size] for i in range(0, len(items), chunk_size)]`;
the fuel (`items.length` at the top call) only forces termination and is
never exhausted first when `0 < n`. -/
def chunkAux (n : ℕ) : ℕ → List α → List (List α)
  | 0, _ => []
  | _ + 1, [] => []
  | fuel + 1, a :: items => ((a :: items).take n) :: chunkAux n fuel ((a :: items).drop n)

/-- `chunk_list(items, chunk_size)`.  Python's `range` with step `0` raises,
so the model is only meaningful for `0 < chunk_size`, the regime every claim
is about. -/
def chunk_list (items : List α) (chunk_size : ℕ) : List (List α) :=
  chunkAux chunk_size items.length items

/-! ### The batch fetcher retry wrapper (`download_hist`) -/

/-- The message of the `RuntimeError` raised after exhausting retries. -/
def dlFailMsg : String := "Failed to download data from yfinance after retries"

/-- The retry loop of `download_hist`, abstracted over an oracle
`fetch : attempt number → outcome` (`none` = the provider raised).  Returns
the result together with the number of `time.sleep(RETRY_SLEEP)` calls
executed (the source sleeps once after every failed attempt, including the
last one before raising). -/
def attemptLoop (fetch : ℕ → Option α) : ℕ → ℕ → Except String α × ℕ
  | 0, _ => (.error dlFailMsg, 0)
  | n + 1, i =>
    match fetch i with
    | some df => (.ok df, 0)
    | none =>
      let p := attemptLoop fetch n (i + 1)
      (p.1, p.2 + 1)

/-- `download_hist(tickers, days_back)` with the network call abstracted as
the oracle `fetch`. -/
def download_hist (fetch : ℕ → Option α) : Except String α × ℕ :=
  attemptLoop fetch MAX_RETRIES 0

/-! ### The Scan Orchestrator (`main` loop) -/

/-- The result of one batch download, keyed by symbol: `dfB sym` is the
sub-frame `df_batch[sym]`, `none` when the symbol is absent from the batch
result. -/
def FrameMap : Type := String → Option Frame

/-- Sub-frame extraction for one symbol (`df_batch[sym].dropna(how="all")` /
the `xs` fallback): `none` when the symbol has no frame at all. -/
def extractFrame (dfB : FrameMap) (sym : String) : Option Frame :=
  (dfB sym).map Frame.dropAllNa

/-- The `"Close" not in df_sym.columns and "Adj Close" in df_sym.columns`
fallback: copy the adjusted close into the close column. -/
def adjFallback (f : Frame) : Frame :=
  if f.hasClose = false ∧ f.hasAdjClose = true then
    { f with hasClose := true,
             rows := f.rows.map (fun r => { r with close := r.adjClose }) }
  else f

/-- The body of the per-symbol loop of `main`: extract the sub-frame, emit a
`no_data` record when it is missing or empty, apply the Adj Close fallback,
align the benchmark onto the ticker's index, evaluate, and convert an
evaluator exception into an `ErrorRecord` (the `except` clause of the
loop).  The webhook post is omitted: its failures are swallowed and it never
touches the records. -/
def processSym (bench_close : Series) (dfB : FrameMap) (sym : String) :
    SignalRecord ⊕ ErrorRecord :=
  match extractFrame dfB sym with
  | none => .inl (mkRec sym "no_data")
  | some f =>
    if f.rows = [] then .inl (mkRec sym "no_data")
    else
      let f1 := adjFallback f
      let benchAligned : Series := f1.dates.zip (alignTo bench_close f1.dates)
      match compute_for_ticker sym (some f1) benchAligned with
      | .ok r => .inl r
      | .error e => .inr { ticker := sym, error := e }

/-- The signal records among a batch's outcomes, in order. -/
def leftsOf (l : List (α ⊕ β)) : List α :=
  l.filterMap (fun x => match x with | .inl a => some a | .inr _ => none)

/-- The error records among a batch's outcomes, in order. -/
def rightsOf (l : List (α ⊕ β)) : List β :=
  l.filterMap (fun x => match x with | .inl _ => none | .inr b => some b)

/-- The batch loop of `main`: for each batch in turn, retry-download it
(`fetchB bi` is the fetch oracle of batch number `bi`); on exhausted retries
append one `ErrorRecord` per ticker of the batch and continue with the next
batch; on success process every symbol of the batch in order. -/
def scanBatches (bench_close : Series) (fetchB : ℕ → ℕ → Option FrameMap) :
    ℕ → List (List String) → List SignalRecord × List ErrorRecord
  | _, [] => ([], [])
  | bi, batch :: rest =>
    let tail := scanBatches bench_close fetchB (bi + 1) rest
    match (download_hist (fetchB bi)).1 with
    | .error e => (tail.1, batch.map (fun t => { ticker := t, error := e }) ++ tail.2)
    | .ok dfB =>
      let outs := batch.map (processSym bench_close dfB)
      (leftsOf outs ++ tail.1, rightsOf outs ++ tail.2)

/-- The portion of `main` after the benchmark fetch succeeded: chunk the
tickers into batches of `DOWNLOAD_BATCH` and run the batch loop
(`enumerate(batches, start=1)`). -/
def runScan (bench_close : Series) (fetchB : ℕ → ℕ → Option FrameMap)
    (tickers : List String) : List SignalRecord × List ErrorRecord :=
  scanBatches bench_close fetchB 1 (chunk_list tickers DOWNLOAD_BATCH)

/-! ### Output ordering (`sort_values` / CSV / JSONL) -/

/-- Sort key: `signal` descending (`ascending=[False, ...]`, so `True`
first) then ticker ascending. -/
def sigRank (r : SignalRecord) : ℕ := if r.signal then 0 else 1

/-- The order of `df_out.sort_values(by=["signal", "ticker"],
ascending=[False, True])`. -/
def recLE (a b : SignalRecord) : Prop :=
  sigRank a < sigRank b ∨ (sigRank a = sigRank b ∧ a.ticker ≤ b.ticker)

instance : DecidableRel recLE := fun a b =>
  inferInstanceAs
    (Decidable (sigRank a < sigRank b ∨ (sigRank a = sigRank b ∧ a.ticker ≤ b.ticker)))

instance : IsTotal SignalRecord recLE := ⟨by
  intro a b
  rcases Nat.lt_trichotomy (sigRank a) (sigRank b) with h | h | h
  · exact Or.inl (Or.inl h)
  · rcases le_total a.ticker b.ticker with ht | ht
    · exact Or.inl (Or.inr ⟨h, ht⟩)
    · exact Or.inr (Or.inr ⟨h.symm, ht⟩)
  · exact Or.inr (Or.inl h)⟩

instance : IsTrans SignalRecord recLE := ⟨by
  intro a b c hab hbc
  rcases hab with h1 | ⟨e1, t1⟩ <;> rcases hbc with h2 | ⟨e2, t2⟩
  · exact Or.inl (h1.trans h2)
  · exact Or.inl (by omega)
  · exact Or.inl (by omega)
  · exact Or.inr ⟨e1.trans e2, t1.trans t2⟩⟩

/-- The rows of `glb_signals.csv`, in file order: the accumulated records
sorted signal-first then ticker-ascending. -/
def csvRows (results : List SignalRecord) : List SignalRecord :=
  List.insertionSort recLE results

/-- The objects of `glb_signals.jsonl`, in file order: the source iterates
over the unsorted `results` list. -/
def jsonlRecords (results : List SignalRecord) : List SignalRecord :=
  results

/-- The ticker a batch outcome belongs to. -/
def tickerOf (x : SignalRecord ⊕ ErrorRecord) : String :=
  Sum.elim SignalRecord.ticker ErrorRecord.ticker x

/-! ### Named subterms of the evaluator's success branch

These name the very expressions `compute_for_ticker` computes once every
gate has passed, for use in theorem statements. -/

/-- The series the evaluator works on: `df_sym.sort_index().dropna(subset=["Close"])`. -/
def workFrame (f : Frame) : Frame := f.sortIndex.dropnaClose

/-- The High column of the gated series. -/
def highsOf (f : Frame) : List (Option ℚ) := (workFrame f).rows.map (·.high)

/-- `hh`: the rolling `BARS_GLB`-bar max of High on the gated series. -/
def hhOf (f : Frame) : List (Option ℚ) := rollingMax BARS_GLB (highsOf f)

/-- The close column of the gated series. -/
def closesOf (f : Frame) : List (Option ℚ) := (workFrame f).rows.map (·.close)

/-- The `glb` boolean of the success branch:
`hh[-1] > hh_prev[-1] and close[-1] > hh_prev[-1]`. -/
def glbOf (f : Frame) : Bool :=
  optGt (olast (hhOf f)) (olast (shift1 (hhOf f))) &&
  optGt (olast (closesOf f)) (olast (shift1 (hhOf f)))

/-- `rs = close / bench_aligned` on the gated series. -/
def rsSeriesOf (f : Frame) (bench : Series) : List (Option ℚ) :=
  List.zipWith divOpt (closesOf f) (alignTo bench (workFrame f).dates)

/-- The `rs_break` boolean of the success branch. -/
def rsOf (f : Frame) (bench : Series) : Bool :=
  optGt (olast (rsSeriesOf f bench))
    (olast (shift1 (rollingMax BARS_RS (rsSeriesOf f bench))))

/-- The `vol_ok` boolean of the success branch (`false` when the Volume
column is absent: that access sits inside the source's `try`). -/
def volOf (f : Frame) : Bool :=
  if (workFrame f).hasVolume then
    optGt (olast ((workFrame f).rows.map (·.volume)))
      (omul VOL_MULT (olast (rollingMean VOL_SMA_LEN ((workFrame f).rows.map (·.volume)))))
  else false

/-- The record the evaluator returns when every gate passes. -/
def successRec (sym : String) (f : Frame) (bench : Series) : SignalRecord :=
  { ticker := sym, date := (workFrame f).dates.getLast?,
    close := olast (closesOf f), glb := glbOf f, rs_break := rsOf f bench,
    vol_ok := volOf f, signal := glbOf f && rsOf f bench && volOf f, notes := "" }

instance exceptDecEq {ε α : Type} [DecidableEq ε] [DecidableEq α] :
    DecidableEq (Except ε α)
  | .error e, .error f => if h : e = f then .isTrue (by rw [h]) else .isFalse (by simp [h])
  | .error _, .ok _ => .isFalse (by simp)
  | .ok _, .error _ => .isFalse (by simp)
  | .ok a, .ok b => if h : a = b then .isTrue (by rw [h]) else .isFalse (by simp [h])

/-! ### Concrete test inputs (used by witnesses and counterexamples) -/

/-- A fully populated trading-day row. -/
def mkRow (i : ℕ) : Row :=
  { date := i, high := some 1, close := some 1, volume := some 1, adjClose := some 1 }

/-- A row whose close (and adjusted close) is missing. -/
def mkRowNC (i : ℕ) : Row :=
  { date := i, high := some 1, close := none, volume := some 1, adjClose := none }

/-- 1260 fully populated rows with ascending dates. -/
def rowsFull : List Row := (List.range 1260).map mkRow

/-- 1260 rows with ascending dates and no close values. -/
def rowsNC : List Row := (List.range 1260).map mkRowNC

/-- A frame with `minLen` fully populated rows: passes every gate. -/
def bigFrame : Frame := ⟨rowsFull, true, true, true, true⟩

/-- `bigFrame` without a `High` column. -/
def frameNoHigh : Frame := ⟨rowsFull, false, true, true, true⟩

/-- A frame long enough to pass the length gate but with every close
missing. -/
def frameNoCloseVals : Frame := ⟨rowsNC, true, true, true, true⟩

/-- A one-row frame (far below the length gate). -/
def oneRowFrame : Frame :=
  { rows := [mkRow 0],
    hasHigh := true, hasClose := true, hasVolume := true, hasAdjClose := true }

/-- A benchmark series with a single observation. -/
def benchC : Series := [(0, some 1)]

/-- A 60-symbol batch `T0 .. T59`. -/
def tickers60 : List String := (List.range 60).map (fun i => "T" ++ toString i)

/-- A batch result lacking a frame for `T0` only. -/
def dfBC : FrameMap := fun s => if s = "T0" then none else some oneRowFrame

/-- A batch fetch oracle that always succeeds with `dfBC`. -/
def fetchBC : ℕ → ℕ → Option FrameMap := fun _ _ => some dfBC

/-- A fetch oracle failing on attempt 0 and succeeding on attempt 1. -/
def fetchOnce : ℕ → Option FrameMap := fun i => if i = 1 then some dfBC else none

/-- A record with no signal, ticker `A`. -/
def recA : SignalRecord := mkRec "A" ""

/-- A record with a signal, ticker `B`. -/
def recB : SignalRecord := { mkRec "B" "" with signal := true }

/-! ## Lemmas about batching -/

theorem chunkAux_nil {α : Type} (n : ℕ) : ∀ fuel, chunkAux (α := α) n fuel [] = [] := by
  intro fuel
  cases fuel <;> rfl

theorem chunkAux_cons {α : Type} (n fuel : ℕ) (a : α) (t : List α) :
    chunkAux n (fuel + 1) (a :: t) =
      ((a :: t).take n) :: chunkAux n fuel ((a :: t).drop n) := rfl

theorem chunkAux_flatten {α : Type} (n : ℕ) (hn : 0 < n) :
    ∀ fuel (items : List α), items.length ≤ fuel →
      (chunkAux n fuel items).flatten = items := by
  intro fuel
  induction fuel with
  | zero =>
    intro items h
    have : items = [] := List.length_eq_zero.mp (Nat.le_zero.mp h)
    subst this
    rfl
  | succ fuel ih =>
    intro items h
    cases items with
    | nil => rfl
    | cons a t =>
      rw [chunkAux_cons, List.flatten_cons, ih ((a :: t).drop n)
        (by simp only [List.length_drop, List.length_cons] at *; omega)]
      exact List.take_append_drop n (a :: t)

theorem chunkAux_mem {α : Type} (n : ℕ) (hn : 0 < n) :
    ∀ fuel (items : List α), items.length ≤ fuel →
      ∀ c ∈ chunkAux n fuel items, c ≠ [] ∧ c.length ≤ n := by
  intro fuel
  induction fuel with
  | zero =>
    intro items h c hc
    have : items = [] := List.length_eq_zero.mp (Nat.le_zero.mp h)
    subst this
    simp [chunkAux_nil] at hc
  | succ fuel ih =>
    intro items h c hc
    cases items with
    | nil => simp [chunkAux_nil] at hc
    | cons a t =>
      rw [chunkAux_cons] at hc
      rcases List.mem_cons.mp hc with rfl | hc
      · constructor
        · obtain ⟨m, rfl⟩ := Nat.exists_eq_add_of_lt hn
          simp [List.take_cons]
        · simp only [List.length_take]
          exact Nat.min_le_left n _
      · exact ih ((a :: t).drop n)
          (by simp only [List.length_drop, List.length_cons] at *; omega) c hc

theorem chunkAux_dropLast {α : Type} (n : ℕ) (hn : 0 < n) :
    ∀ fuel (items : List α), items.length ≤ fuel →
      ∀ c ∈ (chunkAux n fuel items).dropLast, c.length = n := by
  intro fuel
  induction fuel with
  | zero =>
    intro items h c hc
    have : items = [] := List.length_eq_zero.mp (Nat.le_zero.mp h)
    subst this
    simp [chunkAux_nil] at hc
  | succ fuel ih =>
    intro items h c hc
    cases items with
    | nil => simp [chunkAux_nil] at hc
    | cons a t =>
      rw [chunkAux_cons] at hc
      by_cases hd : (a :: t).drop n = []
      · rw [hd, chunkAux_nil] at hc
        simp at hc
      · have hrest : chunkAux n fuel ((a :: t).drop n) ≠ [] := by
          cases fuel with
          | zero =>
            exfalso
            apply hd
            apply List.length_eq_zero.mp
            simp only [List.length_drop, List.length_cons] at *
            omega
          | succ fuel =>
            obtain ⟨r, rs, hr⟩ := List.exists_cons_of_ne_nil hd
            rw [hr, chunkAux_cons]
            simp
        obtain ⟨r, rs, hr⟩ := List.exists_cons_of_ne_nil hrest
        rw [hr, List.dropLast_cons₂] at hc
        rcases List.mem_cons.mp hc with rfl | hc
        · have hlen : n < (a :: t).length := by
            by_contra hcon
            exact hd (List.drop_eq_nil_of_le (Nat.le_of_not_lt hcon))
          simp only [List.length_take]
          omega
        · rw [← hr] at hc
          exact ih ((a :: t).drop n)
            (by simp only [List.length_drop, List.length_cons] at *; omega) c hc

/-! ## Claim theorems -/

/-- Claim C9: for every ticker list and every positive batch size,
`chunk_list` partitions the list — the batches concatenate back to the
original list, every batch is non-empty of length at most the batch size,
and every batch except possibly the last has length exactly the batch
size. -/
theorem c9_chunk_list_partition {α : Type} (items : List α) (n : ℕ) (hn : 0 < n) :
    (chunk_list items n).flatten = items ∧
    (∀ c ∈ chunk_list items n, c ≠ [] ∧ c.length ≤ n) ∧
    (∀ c ∈ (chunk_list items n).dropLast, c.length = n) :=
  ⟨chunkAux_flatten n hn items.length items le_rfl,
   chunkAux_mem n hn items.length items le_rfl,
   chunkAux_dropLast n hn items.length items le_rfl⟩

/-- Witness for C9 at the list `[1, 2, 3, 4, 5]` with batch size 2. -/
theorem c9_chunk_list_partition_witness :
    (0 < 2) ∧
    ((chunk_list [1, 2, 3, 4, 5] 2).flatten = [1, 2, 3, 4, 5] ∧
     (∀ c ∈ chunk_list [1, 2, 3, 4, 5] 2, c ≠ [] ∧ c.length ≤ 2) ∧
     (∀ c ∈ (chunk_list [1, 2, 3, 4, 5] 2).dropLast, c.length = 2)) :=
  ⟨by decide, c9_chunk_list_partition [1, 2, 3, 4, 5] 2 (by decide)⟩

/-- Claim C8: the Signal Evaluator is deterministic — two runs of
`compute_for_ticker` on equal symbol, equal frozen frame and equal benchmark
series return equal `SignalRecord` outcomes (hence records identical in
every field). -/
theorem c8_evaluator_deterministic (sym₁ sym₂ : String) (df₁ df₂ : Option Frame)
    (b₁ b₂ : Series) (hs : sym₁ = sym₂) (hd : df₁ = df₂) (hb : b₁ = b₂) :
    compute_for_ticker sym₁ df₁ b₁ = compute_for_ticker sym₂ df₂ b₂ := by
  rw [hs, hd, hb]

/-- Witness for C8: two runs on the same concrete one-row frame. -/
theorem c8_evaluator_deterministic_witness :
    compute_for_ticker "X" (some oneRowFrame) benchC =
      compute_for_ticker "X" (some oneRowFrame) benchC :=
  c8_evaluator_deterministic "X" "X" (some oneRowFrame) (some oneRowFrame)
    benchC benchC rfl rfl rfl

end GLB

namespace GLB

theorem minLen_eq : minLen = 1260 := by decide

theorem compute_insufficient (sym : String) (f : Frame) (bench : Series)
    (h : f.rows.length < 1260) :
    compute_for_ticker sym (some f) bench = .ok (mkRec sym "insufficient_data") := by
  have hm : f.rows.length < minLen := by rw [minLen_eq]; exact h
  simp only [compute_for_ticker]
  rw [if_pos hm]

theorem compute_no_close (sym : String) (f : Frame) (bench : Series)
    (hlen : ¬ f.rows.length < minLen) (hc : f.hasClose = true)
    (he : (f.sortIndex.dropnaClose).rows = []) :
    compute_for_ticker sym (some f) bench = .ok (mkRec sym "no_close_data") := by
  simp only [compute_for_ticker]
  rw [if_neg hlen, hc, if_neg (by simp), if_pos he]

end GLB

namespace GLB

theorem hasClose_workFrame (f : Frame) : (workFrame f).hasClose = f.hasClose := rfl

theorem hasHigh_workFrame (f : Frame) : (workFrame f).hasHigh = f.hasHigh := rfl

theorem compute_bench_na (sym : String) (f : Frame) (bench : Series)
    (hlen : ¬ f.rows.length < minLen) (hc : f.hasClose = true)
    (hne : ¬ (workFrame f).rows = [])
    (hb : (alignTo bench (workFrame f).dates).all Option.isNone = true) :
    compute_for_ticker sym (some f) bench = .ok (mkRec sym "bench_not_aligned") := by
  simp only [compute_for_ticker]
  rw [if_neg hlen, hc, if_neg (by simp),
    show f.sortIndex.dropnaClose = workFrame f from rfl, if_neg hne, if_pos hb]

theorem compute_success (sym : String) (f : Frame) (bench : Series)
    (hlen : ¬ f.rows.length < minLen) (hc : f.hasClose = true)
    (hne : ¬ (workFrame f).rows = [])
    (hb : ¬ (alignTo bench (workFrame f).dates).all Option.isNone = true)
    (hhigh : f.hasHigh = true) :
    compute_for_ticker sym (some f) bench = .ok (successRec sym f bench) := by
  simp only [compute_for_ticker]
  rw [if_neg hlen, hc, if_neg (by simp),
    show f.sortIndex.dropnaClose = workFrame f from rfl, if_neg hne, if_neg hb,
    hasHigh_workFrame, hhigh, if_neg (by simp)]
  rfl

end GLB

namespace GLB

/-! ## Membership lemmas for discharging gate hypotheses on concrete frames -/

theorem rowsFull_length : rowsFull.length = 1260 := by
  unfold rowsFull
  rw [List.length_map, List.length_range]

theorem rowsNC_length : rowsNC.length = 1260 := by
  unfold rowsNC
  rw [List.length_map, List.length_range]

theorem mem_rowsFull : mkRow 0 ∈ rowsFull := by
  unfold rowsFull
  exact List.mem_map_of_mem mkRow (List.mem_range.mpr (by omega))

theorem rows_sortIndex (f : Frame) :
    (f.sortIndex).rows = List.insertionSort (fun a b => a.date ≤ b.date) f.rows := rfl

theorem rows_dropnaClose (f : Frame) :
    (f.dropnaClose).rows = f.rows.filter (fun r => r.close.isSome) := rfl

theorem mem_sortIndex_rows {f : Frame} {r : Row} (h : r ∈ f.rows) :
    r ∈ f.sortIndex.rows :=
  ((List.perm_insertionSort _ f.rows).mem_iff).mpr h

theorem mem_workFrame_rows {f : Frame} {r : Row} (h : r ∈ f.rows)
    (hc : r.close.isSome = true) : r ∈ (workFrame f).rows :=
  List.mem_filter.mpr ⟨mem_sortIndex_rows h, hc⟩

theorem workFrame_rows_ne_nil {f : Frame} {r : Row} (h : r ∈ f.rows)
    (hc : r.close.isSome = true) : ¬ (workFrame f).rows = [] :=
  List.ne_nil_of_mem (mem_workFrame_rows h hc)

theorem ffillAux_exists_some {v : ℚ} :
    ∀ (l : List (Option ℚ)) (acc : Option ℚ), some v ∈ l →
      ∃ w : ℚ, some w ∈ ffillAux acc l := by
  intro l
  induction l with
  | nil => intro acc h; simp at h
  | cons x xs ih =>
    intro acc h
    cases x with
    | none =>
      have hx : some v ∈ xs := by
        rcases List.mem_cons.mp h with hh | ht
        · exact absurd hh (by simp)
        · exact ht
      obtain ⟨w, hw⟩ := ih acc hx
      exact ⟨w, List.mem_cons_of_mem _ hw⟩
    | some u =>
      exact ⟨u, by simp [ffillAux]⟩

theorem exists_some_bfill_ffill {v : ℚ} {l : List (Option ℚ)} (h : some v ∈ l) :
    ∃ w : ℚ, some w ∈ bfill (ffill l) := by
  obtain ⟨w, hw⟩ := ffillAux_exists_some l none h
  have hrev : some w ∈ (ffill l).reverse := List.mem_reverse.mpr hw
  obtain ⟨u, hu⟩ := ffillAux_exists_some _ none hrev
  exact ⟨u, List.mem_reverse.mpr hu⟩

theorem alignTo_not_all_none {bench : Series} {dates : List ℕ} {v : ℚ}
    (h : some v ∈ dates.map (lookupDate bench)) :
    ¬ (alignTo bench dates).all Option.isNone = true := by
  intro hall
  obtain ⟨w, hw⟩ := exists_some_bfill_ffill h
  have := List.all_eq_true.mp hall _ hw
  simp at this

theorem compute_high_error (sym : String) (f : Frame) (bench : Series)
    (hlen : ¬ f.rows.length < minLen) (hc : f.hasClose = true)
    (hne : ¬ (workFrame f).rows = [])
    (hb : ¬ (alignTo bench (workFrame f).dates).all Option.isNone = true)
    (hhigh : f.hasHigh = false) :
    compute_for_ticker sym (some f) bench = .error "KeyError: High" := by
  simp only [compute_for_ticker]
  rw [if_neg hlen, hc, if_neg (by simp),
    show f.sortIndex.dropnaClose = workFrame f from rfl, if_neg hne, if_neg hb,
    hasHigh_workFrame, hhigh, if_pos rfl]

/-- Claim C3: a ticker frame shorter than the (default) 1260-bar requirement
always yields the `insufficient_data` record — `notes = "insufficient_data"`,
`signal = false` and all three condition booleans `false` (that is what
`mkRec` holds) — with no assumption at all on the close data or the
benchmark, which shows the length gate fires before the `no_close_data` and
`bench_not_aligned` checks; and (second conjunct) on a long-enough frame
with no valid closes the evaluator answers `no_close_data` with no
assumption on the benchmark, which shows that check in turn precedes
`bench_not_aligned`. -/
theorem c3_short_series_gate :
    (∀ (sym : String) (f : Frame) (bench : Series), f.rows.length < 1260 →
        compute_for_ticker sym (some f) bench = .ok (mkRec sym "insufficient_data")) ∧
    (∀ (sym : String) (f : Frame) (bench : Series),
        ¬ f.rows.length < minLen → f.hasClose = true →
        (f.sortIndex.dropnaClose).rows = [] →
        compute_for_ticker sym (some f) bench = .ok (mkRec sym "no_close_data")) :=
  ⟨compute_insufficient, compute_no_close⟩

/-- Witness for C3: a one-row frame gets `insufficient_data` even though its
benchmark is fine, and a 1260-row frame whose closes are all missing gets
`no_close_data` even against an empty benchmark. -/
theorem c3_short_series_gate_witness :
    (oneRowFrame.rows.length < 1260 ∧
      compute_for_ticker "X" (some oneRowFrame) benchC =
        .ok (mkRec "X" "insufficient_data")) ∧
    ((¬ frameNoCloseVals.rows.length < minLen) ∧ frameNoCloseVals.hasClose = true ∧
      (frameNoCloseVals.sortIndex.dropnaClose).rows = [] ∧
      compute_for_ticker "Y" (some frameNoCloseVals) [] =
        .ok (mkRec "Y" "no_close_data")) := by
  have h1 : oneRowFrame.rows.length < 1260 := by decide
  have hlen : ¬ frameNoCloseVals.rows.length < minLen := by
    rw [minLen_eq, show frameNoCloseVals.rows = rowsNC from rfl, rowsNC_length]
    omega
  have e1 : frameNoCloseVals.rows = rowsNC := rfl
  have hemp : (frameNoCloseVals.sortIndex.dropnaClose).rows = [] := by
    rw [rows_dropnaClose, rows_sortIndex, e1]
    apply List.filter_eq_nil_iff.mpr
    intro r hr
    have hr2 : r ∈ rowsNC :=
      ((List.perm_insertionSort (fun a b : Row => a.date ≤ b.date) rowsNC).mem_iff).mp hr
    unfold rowsNC at hr2
    obtain ⟨i, _, rfl⟩ := List.mem_map.mp hr2
    simp [mkRowNC]
  exact ⟨⟨h1, c3_short_series_gate.1 "X" oneRowFrame benchC h1⟩,
    ⟨hlen, rfl, hemp, c3_short_series_gate.2 "Y" frameNoCloseVals [] hlen rfl hemp⟩⟩

/-- Claim C2 (amended): the Signal Evaluator returns a `SignalRecord` without
raising for every input whose frame (when present) has its Close and High
columns; individual condition comparisons on missing data degrade to `false`
rather than raising.  (As originally stated — for *every* input — the claim
is false: see the counterexample, a frame whose High column is absent.) -/
theorem c2_no_raise_with_columns (sym : String) (df : Option Frame) (bench : Series)
    (h : ∀ f, df = some f → f.hasClose = true ∧ f.hasHigh = true) :
    ∃ r, compute_for_ticker sym df bench = .ok r := by
  cases df with
  | none => exact ⟨_, rfl⟩
  | some f =>
    obtain ⟨hc, hh⟩ := h f rfl
    by_cases h1 : f.rows.length < minLen
    · exact ⟨_, compute_insufficient sym f bench (by rw [minLen_eq] at h1; exact h1)⟩
    · by_cases h2 : (workFrame f).rows = []
      · exact ⟨_, compute_no_close sym f bench h1 hc h2⟩
      · by_cases h3 : (alignTo bench (workFrame f).dates).all Option.isNone = true
        · exact ⟨_, compute_bench_na sym f bench h1 hc h2 h3⟩
        · exact ⟨_, compute_success sym f bench h1 hc h2 h3 hh⟩

/-- Witness for C2 (amended) at a concrete one-row frame with all columns
present. -/
theorem c2_no_raise_with_columns_witness :
    (∀ f, (some oneRowFrame : Option Frame) = some f →
        f.hasClose = true ∧ f.hasHigh = true) ∧
    ∃ r, compute_for_ticker "X" (some oneRowFrame) benchC = .ok r :=
  ⟨fun f hf => by cases hf; exact ⟨rfl, rfl⟩,
   c2_no_raise_with_columns "X" (some oneRowFrame) benchC
     (fun f hf => by cases hf; exact ⟨rfl, rfl⟩)⟩

/-- Counterexample to C2 as stated: on a 1260-row frame with valid closes but
no High column, `compute_for_ticker` raises (`KeyError` at the
`df_sym["High"]` access, which sits outside every `try` block in the
source) instead of returning a `SignalRecord`. -/
theorem c2_raises_counterexample :
    compute_for_ticker "X" (some frameNoHigh) benchC = .error "KeyError: High" := by
  have hlen : ¬ frameNoHigh.rows.length < minLen := by
    rw [minLen_eq, show frameNoHigh.rows = rowsFull from rfl, rowsFull_length]
    omega
  have hmem : mkRow 0 ∈ frameNoHigh.rows := mem_rowsFull
  have hne : ¬ (workFrame frameNoHigh).rows = [] :=
    workFrame_rows_ne_nil hmem (by simp [mkRow])
  have hb : ¬ (alignTo benchC (workFrame frameNoHigh).dates).all Option.isNone = true := by
    apply alignTo_not_all_none (v := 1)
    have h0 : (0 : ℕ) ∈ (workFrame frameNoHigh).dates := by
      have hm : mkRow 0 ∈ (workFrame frameNoHigh).rows :=
        mem_workFrame_rows hmem (by simp [mkRow])
      exact List.mem_map_of_mem (fun r : Row => r.date) hm
    have h2 := List.mem_map_of_mem (lookupDate benchC) h0
    have e2 : lookupDate benchC 0 = some 1 := rfl
    rw [e2] at h2
    exact h2
  exact compute_high_error "X" frameNoHigh benchC hlen rfl hne hb rfl

end GLB

namespace GLB


/-- Claim C6: in the sorted output frame every record with `signal = true`
precedes every record with `signal = false`, and within each signal group
the tickers are in ascending order; the sorted frame holds exactly the
accumulated records. -/
theorem c6_csv_sort_order (results : List SignalRecord) :
    (csvRows results).Perm results ∧
    (csvRows results).Pairwise (fun a b =>
      (a.signal = false → b.signal = false) ∧
      (a.signal = b.signal → a.ticker ≤ b.ticker)) := by
  refine ⟨List.perm_insertionSort recLE results, ?_⟩
  have hs := List.sorted_insertionSort recLE results
  refine List.Pairwise.imp ?_ hs
  intro a b hab
  constructor
  · intro ha
    rcases hab with h | ⟨e, _⟩
    · cases hb : b.signal
      · rfl
      · exfalso
        simp [sigRank, ha, hb] at h
    · cases hb : b.signal
      · rfl
      · exfalso
        simp [sigRank, ha, hb] at e
  · intro he
    rcases hab with h | ⟨_, t⟩
    · exfalso
      simp [sigRank, he] at h
    · exact t

/-- Claim C5 (amended): the JSONL output holds one object per accumulated
`SignalRecord` with the same fields, one per line, in the original
accumulation (pre-sort) order; its records are a permutation of the sorted
CSV rows, but in general not in the CSV's order (see the counterexample). -/
theorem c5_jsonl_same_records (results : List SignalRecord) :
    jsonlRecords results = results ∧ (csvRows results).Perm (jsonlRecords results) :=
  ⟨rfl, List.perm_insertionSort recLE results⟩

/-- Counterexample to C5 as stated: with a no-signal record for ticker `A`
accumulated before a signal record for ticker `B`, the JSONL order
`[A, B]` differs from the CSV order `[B, A]` (the CSV sorts signals
first). -/
theorem c5_order_counterexample :
    jsonlRecords [recA, recB] ≠ csvRows [recA, recB] := by decide

end GLB

namespace GLB

theorem attemptLoop_all_fail {α : Type} (fetch : ℕ → Option α) :
    ∀ (n i : ℕ), (∀ j, i ≤ j → j < i + n → fetch j = none) →
      attemptLoop fetch n i = (.error dlFailMsg, n) := by
  intro n
  induction n with
  | zero => intro i _; rfl
  | succ n ih =>
    intro i h
    have h0 : fetch i = none := h i le_rfl (by omega)
    simp only [attemptLoop, h0]
    rw [ih (i + 1) (fun j hj1 hj2 => h j (by omega) (by omega))]

theorem attemptLoop_success {α : Type} (fetch : ℕ → Option α) (df : α) :
    ∀ (n k i : ℕ), k < n → (∀ j, j < k → fetch (i + j) = none) →
      fetch (i + k) = some df → attemptLoop fetch n i = (.ok df, k) := by
  intro n
  induction n with
  | zero => intro k i hk; omega
  | succ n ih =>
    intro k i hk hfail hsucc
    cases k with
    | zero =>
      have h0 : fetch i = some df := by simpa using hsucc
      simp only [attemptLoop, h0]
    | succ k =>
      have h0 : fetch i = none := by simpa using hfail 0 (by omega)
      simp only [attemptLoop, h0]
      rw [ih k (i + 1) (by omega)
        (fun j hj => by
          have := hfail (j + 1) (by omega)
          rw [show i + 1 + j = i + (j + 1) from by omega]
          exact this)
        (by
          rw [show i + 1 + k = i + (k + 1) from by omega]
          exact hsucc)]

/-- Claim C7: the batch fetcher attempts a download at most `MAX_RETRIES = 3`
times, sleeping once after each failed attempt (the second component counts
the `time.sleep(RETRY_SLEEP)` calls), succeeds as soon as an attempt
succeeds, and raises only after all attempts fail; and when a batch's fetch
exhausts its retries the orchestrator appends exactly one `ErrorRecord` per
ticker of that batch and continues with the remaining batches. -/
theorem c7_retry_policy :
    (∀ (fetch : ℕ → Option FrameMap) (k : ℕ) (dfB : FrameMap), k < MAX_RETRIES →
        (∀ i, i < k → fetch i = none) → fetch k = some dfB →
        download_hist fetch = (.ok dfB, k)) ∧
    (∀ fetch : ℕ → Option FrameMap, (∀ i, i < MAX_RETRIES → fetch i = none) →
        download_hist fetch = (.error dlFailMsg, MAX_RETRIES)) ∧
    (∀ (bench : Series) (fetchB : ℕ → ℕ → Option FrameMap) (bi : ℕ)
        (batch : List String) (rest : List (List String)),
        (∀ a, a < MAX_RETRIES → fetchB bi a = none) →
        scanBatches bench fetchB bi (batch :: rest) =
          ((scanBatches bench fetchB (bi + 1) rest).1,
           batch.map (fun t => { ticker := t, error := dlFailMsg }) ++
             (scanBatches bench fetchB (bi + 1) rest).2)) := by
  refine ⟨?_, ?_, ?_⟩
  · intro fetch k dfB hk hfail hsucc
    exact attemptLoop_success fetch dfB MAX_RETRIES k 0 hk
      (fun j hj => by simpa using hfail j hj) (by simpa using hsucc)
  · intro fetch h
    exact attemptLoop_all_fail fetch MAX_RETRIES 0 (fun j h1 h2 => h j (by omega))
  · intro bench fetchB bi batch rest h
    have hd : download_hist (fetchB bi) = (.error dlFailMsg, MAX_RETRIES) :=
      attemptLoop_all_fail (fetchB bi) MAX_RETRIES 0 (fun j h1 h2 => h j (by omega))
    simp only [scanBatches, hd]

/-- Witness for C7: an oracle succeeding on its second attempt returns after
one sleep; an always-failing oracle exhausts the three retries; a batch of
two tickers whose fetch always fails contributes exactly two error records
while the following batch is still processed. -/
theorem c7_retry_policy_witness :
    ((1 < MAX_RETRIES) ∧ download_hist fetchOnce = (.ok dfBC, 1)) ∧
    (download_hist (fun _ => (none : Option FrameMap)) =
      (.error dlFailMsg, MAX_RETRIES)) ∧
    (scanBatches benchC (fun _ _ => none) 1 (["A", "B"] :: [["C"]]) =
      ((scanBatches benchC (fun _ _ => none) 2 [["C"]]).1,
       ["A", "B"].map (fun t => { ticker := t, error := dlFailMsg }) ++
         (scanBatches benchC (fun _ _ => none) 2 [["C"]]).2)) :=
  ⟨⟨by decide,
    c7_retry_policy.1 fetchOnce 1 dfBC (by decide)
      (fun i hi => by
        obtain rfl : i = 0 := by omega
        rfl)
      rfl⟩,
   c7_retry_policy.2.1 (fun _ => none) (fun i _ => rfl),
   c7_retry_policy.2.2 benchC (fun _ _ => none) 1 ["A", "B"] [["C"]]
     (fun a _ => rfl)⟩

end GLB

namespace GLB

theorem compute_ticker_eq (sym : String) (df : Option Frame) (bench : Series)
    (r : SignalRecord) (h : compute_for_ticker sym df bench = .ok r) :
    r.ticker = sym := by
  cases df with
  | none =>
    simp only [compute_for_ticker] at h
    cases h
    rfl
  | some f =>
    simp only [compute_for_ticker] at h
    repeat' split at h
    all_goals first
      | (cases h; rfl)
      | (cases h)

theorem processSym_tickerOf (bench : Series) (dfB : FrameMap) (sym : String) :
    tickerOf (processSym bench dfB sym) = sym := by
  unfold processSym
  cases hex : extractFrame dfB sym with
  | none => rfl
  | some f =>
    dsimp only
    by_cases hr : f.rows = []
    · rw [if_pos hr]
      rfl
    · rw [if_neg hr]
      cases hc : compute_for_ticker sym (some (adjFallback f))
          ((adjFallback f).dates.zip (alignTo bench (adjFallback f).dates)) with
      | ok r =>
        dsimp only
        exact compute_ticker_eq sym _ _ r hc
      | error e =>
        rfl

theorem batch_outcomes_perm (bench : Series) (dfB : FrameMap) :
    ∀ batch : List String,
      ((leftsOf (batch.map (processSym bench dfB))).map SignalRecord.ticker ++
       (rightsOf (batch.map (processSym bench dfB))).map ErrorRecord.ticker).Perm
        batch := by
  intro batch
  induction batch with
  | nil => simp [leftsOf, rightsOf]
  | cons sym rest ih =>
    have ht := processSym_tickerOf bench dfB sym
    cases hx : processSym bench dfB sym with
    | inl r =>
      rw [hx] at ht
      simp only [List.map_cons, hx, leftsOf, rightsOf, List.filterMap_cons]
      simp only [leftsOf, rightsOf] at ih
      have ht2 : r.ticker = sym := ht
      rw [ht2]
      exact ih.cons sym
    | inr e =>
      rw [hx] at ht
      simp only [List.map_cons, hx, leftsOf, rightsOf, List.filterMap_cons]
      simp only [leftsOf, rightsOf] at ih
      have ht2 : e.ticker = sym := ht
      refine List.Perm.trans List.perm_middle ?_
      rw [ht2]
      exact ih.cons sym

end GLB

namespace GLB

theorem scanBatches_perm (bench : Series) (fetchB : ℕ → ℕ → Option FrameMap) :
    ∀ (batches : List (List String)) (bi : ℕ),
      ((scanBatches bench fetchB bi batches).1.map SignalRecord.ticker ++
       (scanBatches bench fetchB bi batches).2.map ErrorRecord.ticker).Perm
        batches.flatten := by
  intro batches
  induction batches with
  | nil =>
    intro bi
    simp [scanBatches]
  | cons batch rest ih =>
    intro bi
    simp only [scanBatches, List.flatten_cons]
    cases hd : (download_hist (fetchB bi)).1 with
    | error e =>
      dsimp only
      rw [List.map_append, List.map_map]
      rw [show (ErrorRecord.ticker ∘ fun t =>
          ({ ticker := t, error := e } : ErrorRecord)) = id from rfl, List.map_id]
      refine List.Perm.trans (List.perm_append_comm_assoc _ _ _) ?_
      exact (ih (bi + 1)).append_left batch
    | ok dfB =>
      dsimp only
      rw [List.map_append, List.map_append, List.append_assoc]
      refine List.Perm.trans
        (List.Perm.append_left _ (List.perm_append_comm_assoc _ _ _)) ?_
      rw [← List.append_assoc]
      exact List.Perm.append (batch_outcomes_perm bench dfB batch) (ih (bi + 1))

/-- Claim C10: in every run past a successful benchmark fetch, each
occurrence of a loaded ticker yields exactly one accumulated outcome —
the tickers of the signal records and of the error records together are a
permutation of the loaded ticker list, and in particular
`len(results) + len(errors)` equals the number of loaded tickers. -/
theorem c10_one_outcome_per_ticker (bench : Series) (fetchB : ℕ → ℕ → Option FrameMap)
    (tickers : List String) :
    ((runScan bench fetchB tickers).1.map SignalRecord.ticker ++
     (runScan bench fetchB tickers).2.map ErrorRecord.ticker).Perm tickers ∧
    (runScan bench fetchB tickers).1.length + (runScan bench fetchB tickers).2.length
      = tickers.length := by
  have hflat : (chunk_list tickers DOWNLOAD_BATCH).flatten = tickers :=
    chunkAux_flatten DOWNLOAD_BATCH (by decide) tickers.length tickers le_rfl
  have hp := scanBatches_perm bench fetchB (chunk_list tickers DOWNLOAD_BATCH) 1
  rw [hflat] at hp
  refine ⟨hp, ?_⟩
  have hl := hp.length_eq
  rw [List.length_append, List.length_map, List.length_map] at hl
  exact hl

end GLB

namespace GLB

theorem chunk_list_single {α : Type} (l : List α) (n : ℕ) (hne : l ≠ [])
    (hlen : l.length ≤ n) : chunk_list l n = [l] := by
  cases l with
  | nil => exact absurd rfl hne
  | cons a t =>
    show chunkAux n (a :: t).length (a :: t) = [a :: t]
    rw [List.length_cons, chunkAux_cons,
      List.take_of_length_le hlen, List.drop_eq_nil_of_le hlen, chunkAux_nil]

/-- Claim C4 (amended): a ticker whose frame is missing from the batch result
gets the `no_data` record (the source's `notes` for a missing or empty
sub-frame is `"no_data"`, not `"no_close_data"` — see the counterexample);
the outcome of every other ticker does not depend on the missing ticker's
entry in the batch result; and a single successful batch produces exactly
the per-symbol outcomes of `processSym`, in order. -/
theorem c4_missing_frame_isolated (bench : Series) (dfB dfB2 : FrameMap)
    (batch : List String) (sym0 : String) (fetchB : ℕ → ℕ → Option FrameMap)
    (h0 : dfB sym0 = none) :
    processSym bench dfB sym0 = .inl (mkRec sym0 "no_data") ∧
    ((∀ s, s ≠ sym0 → dfB2 s = dfB s) → ∀ sym, sym ≠ sym0 →
        processSym bench dfB2 sym = processSym bench dfB sym) ∧
    (batch ≠ [] → batch.length ≤ DOWNLOAD_BATCH → fetchB 1 0 = some dfB →
        runScan bench fetchB batch =
          (leftsOf (batch.map (processSym bench dfB)),
           rightsOf (batch.map (processSym bench dfB)))) := by
  refine ⟨?_, ?_, ?_⟩
  · unfold processSym extractFrame
    rw [h0]
    rfl
  · intro hagree sym hsym
    unfold processSym extractFrame
    rw [hagree sym hsym]
  · intro hne hlen hf
    have hdl : download_hist (fetchB 1) = (.ok dfB, 0) :=
      attemptLoop_success (fetchB 1) dfB MAX_RETRIES 0 0 (by decide)
        (fun j hj => absurd hj (Nat.not_lt_zero j)) (by simpa using hf)
    unfold runScan
    rw [chunk_list_single batch DOWNLOAD_BATCH hne hlen]
    simp only [scanBatches, hdl, List.append_nil]

/-- Counterexample to C4 as stated: in a 60-symbol batch whose fetch
succeeds but whose result has no frame for `T0` (and one-row frames for the
59 others), every ticker still gets a `SignalRecord` (60 records, no
errors), but `T0`'s record carries `notes = "no_data"`, not the claimed
`"no_close_data"`. -/
theorem c4_counterexample :
    (runScan benchC fetchBC tickers60).1.head? = some (mkRec "T0" "no_data") ∧
    (runScan benchC fetchBC tickers60).2 = [] ∧
    (runScan benchC fetchBC tickers60).1.length = 60 ∧
    (mkRec "T0" "no_data").notes ≠ "no_close_data" := by
  refine ⟨by decide, by decide, by decide, by decide⟩

/-- Witness for C4 (amended), on the same concrete 60-symbol batch. -/
theorem c4_missing_frame_isolated_witness :
    dfBC "T0" = none ∧
    (processSym benchC dfBC "T0" = .inl (mkRec "T0" "no_data") ∧
     ((∀ s, s ≠ "T0" → dfBC s = dfBC s) → ∀ sym, sym ≠ "T0" →
         processSym benchC dfBC sym = processSym benchC dfBC sym) ∧
     (tickers60 ≠ [] → tickers60.length ≤ DOWNLOAD_BATCH → fetchBC 1 0 = some dfBC →
         runScan benchC fetchBC tickers60 =
           (leftsOf (tickers60.map (processSym benchC dfBC)),
            rightsOf (tickers60.map (processSym benchC dfBC))))) ∧
    runScan benchC fetchBC tickers60 =
      (leftsOf (tickers60.map (processSym benchC dfBC)),
       rightsOf (tickers60.map (processSym benchC dfBC))) :=
  ⟨by decide,
   c4_missing_frame_isolated benchC dfBC dfBC tickers60 "T0" fetchBC (by decide),
   (c4_missing_frame_isolated benchC dfBC dfBC tickers60 "T0" fetchBC (by decide)).2.2
     (by decide) (by decide) rfl⟩

end GLB

namespace GLB

/-! ## Lemmas about rolling maxima, used for the strict-breakout claim -/

theorem maxSome_mem : ∀ {l : List (Option ℚ)} {m : ℚ},
    maxSome l = some m → some m ∈ l := by
  intro l
  induction l with
  | nil => intro m h; simp [maxSome] at h
  | cons y xs ih =>
    intro m h
    cases y with
    | none =>
      exact List.mem_cons_of_mem _ (ih h)
    | some v =>
      simp only [maxSome] at h
      cases hm : maxSome xs with
      | none =>
        rw [hm] at h
        cases h
        exact List.mem_cons_self _ _
      | some m2 =>
        rw [hm] at h
        injection h with h2
        rcases le_total v m2 with hc | hc
        · rw [← h2, max_eq_right hc]
          exact List.mem_cons_of_mem _ (ih hm)
        · rw [← h2, max_eq_left hc]
          exact List.mem_cons_self _ _

theorem le_maxSome : ∀ {l : List (Option ℚ)} {x : ℚ}, some x ∈ l →
    ∃ m, maxSome l = some m ∧ x ≤ m := by
  intro l
  induction l with
  | nil => intro x h; simp at h
  | cons y xs ih =>
    intro x h
    rcases List.mem_cons.mp h with he | ht
    · subst he
      cases hm : maxSome xs with
      | none => exact ⟨x, by simp [maxSome, hm], le_refl x⟩
      | some m2 => exact ⟨max x m2, by simp [maxSome, hm], le_max_left x m2⟩
    · obtain ⟨m, hm, hxm⟩ := ih ht
      cases y with
      | none => exact ⟨m, by simp [maxSome, hm], hxm⟩
      | some u => exact ⟨max u m, by simp [maxSome, hm], hxm.trans (le_max_right u m)⟩

theorem optGt_maxSome_false {l : List (Option ℚ)} {v : ℚ}
    (h : ∀ x : ℚ, some x ∈ l → x ≤ v) : optGt (maxSome l) (some v) = false := by
  cases hm : maxSome l with
  | none => rfl
  | some m =>
    have hle := h m (maxSome_mem hm)
    simp only [optGt]
    exact decide_eq_false (not_lt.mpr hle)

theorem olast_of_getLast? {l : List (Option ℚ)} {v : Option ℚ}
    (h : l.getLast? = some v) : olast l = v := by
  unfold olast
  rw [h]

theorem getLast?_of_olast_some {l : List (Option ℚ)} {v : ℚ}
    (h : olast l = some v) : l.getLast? = some (some v) := by
  unfold olast at h
  cases hg : l.getLast? with
  | none =>
    rw [hg] at h
    exact absurd h (by simp)
  | some u =>
    rw [hg] at h
    dsimp only at h
    rw [h]

theorem length_rollingMax (w : ℕ) (l : List (Option ℚ)) :
    (rollingMax w l).length = l.length := by
  rw [rollingMax, List.length_map, List.length_range]

theorem olast_rollingMax {w : ℕ} {l : List (Option ℚ)} (h : l ≠ []) :
    olast (rollingMax w l) = maxSome (winSlice w l (l.length - 1)) := by
  have hpos : 0 < l.length := List.length_pos.mpr h
  apply olast_of_getLast?
  rw [List.getLast?_eq_getElem?, length_rollingMax, rollingMax, List.getElem?_map,
    List.getElem?_range (by omega)]
  rfl

theorem length_shift1 (l : List (Option ℚ)) : (shift1 l).length = l.length := by
  rw [shift1, List.length_take, List.length_cons]
  exact Nat.min_eq_left (by omega)

theorem getLast?_shift1 {l : List (Option ℚ)} {n : ℕ} (hn : l.length = n)
    (h2 : 2 ≤ n) : (shift1 l).getLast? = l[n - 2]? := by
  rw [List.getLast?_eq_getElem?, length_shift1, hn, shift1, List.getElem?_take,
    if_pos (by rw [hn]; omega), show n - 1 = (n - 2) + 1 from by omega,
    List.getElem?_cons_succ]

theorem olast_shift1_rollingMax {w : ℕ} {l : List (Option ℚ)} {n : ℕ}
    (hn : l.length = n) (h2 : 2 ≤ n) :
    olast (shift1 (rollingMax w l)) = maxSome (winSlice w l (n - 2)) := by
  apply olast_of_getLast?
  rw [getLast?_shift1 (by rw [length_rollingMax, hn]) h2, rollingMax,
    List.getElem?_map, ← hn, List.getElem?_range (by omega)]
  rfl

theorem olast_shift1_len_one {l : List (Option ℚ)} (h : l.length = 1) :
    olast (shift1 l) = none := by
  obtain ⟨a, rfl⟩ := List.length_eq_one.mp h
  rfl

theorem winSlice_le_of_last {l : List (Option ℚ)} {w : ℕ} {x v : ℚ}
    (h2 : 2 ≤ l.length)
    (hlast : l[l.length - 1]? = some (some v))
    (hmax : maxSome (winSlice w l (l.length - 2)) = some v)
    (hx : some x ∈ winSlice w l (l.length - 1)) : x ≤ v := by
  obtain ⟨j, hget⟩ := List.mem_iff_getElem?.mp hx
  rw [winSlice, show l.length - 1 + 1 = l.length from by omega, List.getElem?_drop,
    List.getElem?_take] at hget
  split at hget
  case isFalse => exact absurd hget (by simp)
  case isTrue hcond =>
    by_cases hi : (l.length - w) + j = l.length - 1
    · rw [hi, hlast] at hget
      injection hget with hg2
      injection hg2 with hg3
      exact le_of_eq hg3.symm
    · have hmem2 : some x ∈ winSlice w l (l.length - 2) := by
        rw [List.mem_iff_getElem?]
        refine ⟨(l.length - w) + j - ((l.length - 1) - w), ?_⟩
        rw [winSlice, show l.length - 2 + 1 = l.length - 1 from by omega,
          List.getElem?_drop, List.getElem?_take, if_pos (by omega),
          show (l.length - 1) - w + ((l.length - w) + j - ((l.length - 1) - w))
            = (l.length - w) + j from by omega]
        exact hget
      obtain ⟨m, hm, hxm⟩ := le_maxSome hmem2
      rw [hmax] at hm
      injection hm with hm2
      rw [← hm2] at hxm
      exact hxm

end GLB

namespace GLB

/-- Claim C1: for every ticker frame that passes the length and data gates
(length gate, Close present and some close valid, benchmark alignable, High
column present so the rolling max is computable), the evaluator's `glb`
field is `true` iff `hh[-1] > hh_prev[-1]` and `close[-1] > hh_prev[-1]`,
both strictly, where `hh` is the trailing `BARS_GLB`-bar rolling max of
High (`min_periods = 1`) on the gated series and `hh_prev` its shift by
one; in particular a tie — the last bar's high exactly equal to the prior
rolling high — never sets `glb`. -/
theorem c1_glb_strict_breakout (sym : String) (f : Frame) (bench : Series)
    (hlen : ¬ f.rows.length < minLen) (hc : f.hasClose = true)
    (hhigh : f.hasHigh = true) (hne : ¬ (workFrame f).rows = [])
    (hb : ¬ (alignTo bench (workFrame f).dates).all Option.isNone = true) :
    compute_for_ticker sym (some f) bench = .ok (successRec sym f bench) ∧
    ((successRec sym f bench).glb = true ↔
      (optGt (olast (hhOf f)) (olast (shift1 (hhOf f))) = true ∧
       optGt (olast (closesOf f)) (olast (shift1 (hhOf f))) = true)) ∧
    (∀ v : ℚ, olast (highsOf f) = some v → olast (shift1 (hhOf f)) = some v →
        (successRec sym f bench).glb = false) := by
  refine ⟨compute_success sym f bench hlen hc hne hb hhigh, ?_, ?_⟩
  · show glbOf f = true ↔ _
    simp only [glbOf, Bool.and_eq_true]
  · intro v hv hprev
    have hne2 : highsOf f ≠ [] := fun hnil => hne (List.map_eq_nil_iff.mp hnil)
    have hpos : 1 ≤ (highsOf f).length := List.length_pos.mpr hne2
    have heq : hhOf f = rollingMax BARS_GLB (highsOf f) := rfl
    by_cases h1 : (highsOf f).length = 1
    · have hnone : olast (shift1 (hhOf f)) = none :=
        olast_shift1_len_one (by rw [heq, length_rollingMax, h1])
      rw [hnone] at hprev
      exact absurd hprev (by simp)
    · have h2 : 2 ≤ (highsOf f).length := by omega
      have hprev2 : maxSome (winSlice BARS_GLB (highsOf f) ((highsOf f).length - 2))
          = some v := by
        rw [heq] at hprev
        rw [← olast_shift1_rollingMax rfl h2]
        exact hprev
      have hlast2 : (highsOf f)[(highsOf f).length - 1]? = some (some v) := by
        have hg := getLast?_of_olast_some hv
        rw [List.getLast?_eq_getElem?] at hg
        exact hg
      have hA : optGt (olast (hhOf f)) (olast (shift1 (hhOf f))) = false := by
        rw [heq, olast_rollingMax hne2, olast_shift1_rollingMax rfl h2, hprev2]
        apply optGt_maxSome_false
        intro x hx
        exact winSlice_le_of_last h2 hlast2 hprev2 hx
      show glbOf f = false
      rw [glbOf, hA, Bool.false_and]

end GLB

namespace GLB

/-- Witness for C1 at the concrete 1260-row fully populated frame, which
passes every gate against the one-point benchmark. -/
theorem c1_glb_strict_breakout_witness :
    (¬ bigFrame.rows.length < minLen) ∧ bigFrame.hasClose = true ∧
    bigFrame.hasHigh = true ∧ (¬ (workFrame bigFrame).rows = []) ∧
    (¬ (alignTo benchC (workFrame bigFrame).dates).all Option.isNone = true) ∧
    (compute_for_ticker "X" (some bigFrame) benchC =
        .ok (successRec "X" bigFrame benchC) ∧
     ((successRec "X" bigFrame benchC).glb = true ↔
       (optGt (olast (hhOf bigFrame)) (olast (shift1 (hhOf bigFrame))) = true ∧
        optGt (olast (closesOf bigFrame)) (olast (shift1 (hhOf bigFrame))) = true)) ∧
     (∀ v : ℚ, olast (highsOf bigFrame) = some v →
        olast (shift1 (hhOf bigFrame)) = some v →
        (successRec "X" bigFrame benchC).glb = false)) := by
  have hlen : ¬ bigFrame.rows.length < minLen := by
    rw [minLen_eq, show bigFrame.rows = rowsFull from rfl, rowsFull_length]
    omega
  have hmem : mkRow 0 ∈ bigFrame.rows := mem_rowsFull
  have hne : ¬ (workFrame bigFrame).rows = [] :=
    workFrame_rows_ne_nil hmem (by simp [mkRow])
  have hb : ¬ (alignTo benchC (workFrame bigFrame).dates).all Option.isNone = true := by
    apply alignTo_not_all_none (v := 1)
    have h0 : (0 : ℕ) ∈ (workFrame bigFrame).dates := by
      have hm : mkRow 0 ∈ (workFrame bigFrame).rows :=
        mem_workFrame_rows hmem (by simp [mkRow])
      exact List.mem_map_of_mem (fun r : Row => r.date) hm
    have h2 := List.mem_map_of_mem (lookupDate benchC) h0
    have e2 : lookupDate benchC 0 = some 1 := rfl
    rw [e2] at h2
    exact h2
  exact ⟨hlen, rfl, rfl, hne, hb,
    c1_glb_strict_breakout "X" bigFrame benchC hlen rfl rfl hne hb⟩

end GLB
